import Mathlib

/-!
Verification of the uconfig configuration-binding engine (Tinkoff/uconfig).

Shallow embedding of the core traversal machinery of `include/uconfig`:

* `Objects.h` / `impl/Objects.ipp` — `Variable<T>` (scalar holder, also the base of
  `Vector<T>`), the error taxonomy `Error` / `ParseError` / `EmitError`;
* `Interface.h` / `impl/Interface.ipp` — the binding adapters
  `VariableIface`, `ValueIface`, `VectorIface`, `ConfigIface`;
* `format/Env.h` / `format/impl/Env.ipp` — the environment (text) format backend.

C++ exceptions are modelled with `Except`; in-place mutation is modelled by
state passing (each `Parse`/`Emit` returns the updated object next to the
thrown-or-returned outcome). Scalar payloads are modelled at `Nat`
(the engine is generic; the repository tests instantiate integers).
-/

set_option autoImplicit false

namespace UConfig

/-- Kind of a thrown C++ exception: `uconfig::Error` (the base), `uconfig::ParseError`,
`uconfig::EmitError`, or a foreign `std::exception` (as thrown by user validation hooks). -/
inductive ErrKind where
  | base
  | parse
  | emit
  | std
  deriving DecidableEq, Repr

/-- A thrown C++ exception: its dynamic kind plus its `what()` message. -/
structure Err where
  kind : ErrKind
  msg : String
  deriving DecidableEq, Repr

/-- `catch (const uconfig::Error&)` matches `Error`, `ParseError` and `EmitError`,
but not a foreign `std::exception`. -/
def Err.isUconfigError (e : Err) : Bool :=
  e.kind != ErrKind.std

/-- The ASCII single-quote character used by the error-message templates. -/
def sq : String := (Char.ofNat 39).toString

/-- The message template `<name> + " config " + sq + path + sq + " is not valid: " + what`
used throughout `Interface.ipp`. -/
def notValidMsg (fmtName path what : String) : String :=
  fmtName ++ " config " ++ sq ++ path ++ sq ++ " is not valid: " ++ what

/-- `uconfig::Variable<T>` (Objects.h, Objects.ipp): the `optional_` flag plus
`std::optional<T>` storage `value_`.  `uconfig::Vector<T>` derives from
`Variable<std::vector<T>>` and is modelled as `Variable (List T)`. -/
structure Variable (T : Type) where
  optional_ : Bool
  value_ : Option T
  deriving DecidableEq, Repr

/-- `Variable<T>::Variable()` (Objects.ipp, lines 115-120): mandatory, no value. -/
def Variable.empty (T : Type) : Variable T := ⟨false, none⟩

/-- `Variable<T>::Variable(const T&)` (Objects.ipp, lines 129-134): pre-seeded default,
optional and initialized. -/
def Variable.withDefault {T : Type} (x : T) : Variable T := ⟨true, some x⟩

/-- `Variable<T>::Initialized` (Objects.ipp, lines 143-147). -/
def Variable.Initialized {T : Type} (v : Variable T) : Bool := v.value_.isSome

/-- `Variable<T>::Optional` (Objects.ipp, lines 149-153). -/
def Variable.Optional {T : Type} (v : Variable T) : Bool := v.optional_

/-- `Variable<T>::operator=(T&&)` (Objects.ipp, lines 136-141): replaces `value_`,
leaves `optional_` untouched. -/
def Variable.assign {T : Type} (v : Variable T) (x : T) : Variable T :=
  { v with value_ := some x }

/-- `VariableIface<T, Format>::Parse` (Interface.ipp, lines 152-177), state-passing.
`fparse` is `parser.Parse<T>(source, path)` with the source baked in; `validate` is the
object's `Validate()` hook as observed on the freshly assigned value (the base-class
default hook is `fun _ => none`).  A hook failure that is a `uconfig::Error` is re-thrown
as `ParseError(ex.what())`; any other `std::exception` is wrapped with the
`notValidMsg` template — in either case only when `throw_on_fail`. -/
def VariableIface.Parse {T : Type} (fparse : String → Option T) (validate : T → Option Err)
    (fmtName path : String) (v : Variable T) (throw_on_fail : Bool) :
    Variable T × Except Err Bool :=
  match fparse path with
  | none =>
      if !v.Initialized && throw_on_fail then
        (v, Except.error ⟨ErrKind.parse, notValidMsg fmtName path "variable is not set"⟩)
      else
        (v, Except.ok false)
  | some result =>
      let v2 := v.assign result
      match validate result with
      | none => (v2, Except.ok true)
      | some ex =>
          if throw_on_fail then
            (v2, Except.error ⟨ErrKind.parse,
              if ex.isUconfigError then ex.msg else notValidMsg fmtName path ex.msg⟩)
          else
            (v2, Except.ok true)

/-- `VariableIface<T, Format>::Emit` (Interface.ipp, lines 179-190): evaluates
`variable_ptr_->Get()` inside the try — `Get` throws `uconfig::Error`
("failed to get variable value: it is not set", Objects.ipp lines 155-162) when the
variable holds no value, so nothing is written; the catch wraps it into `EmitError`
only when `throw_on_fail`.  `femit` is `emitter.Emit(dest, path, value)`. -/
def VariableIface.Emit {T D : Type} (femit : D → String → T → D)
    (fmtName path : String) (v : Variable T) (dest : D) (throw_on_fail : Bool) :
    D × Except Err Unit :=
  match v.value_ with
  | none =>
      if throw_on_fail then
        (dest, Except.error ⟨ErrKind.emit,
          notValidMsg fmtName path "failed to get variable value: it is not set"⟩)
      else
        (dest, Except.ok ())
  | some x => (femit dest path x, Except.ok ())

/-- `ValueIface<T, Format>::Parse` (Interface.ipp, lines 102-116): wraps a plain `T`
(a vector element).  `ValueIface::Optional()` is constantly `false` (lines 136-140), so
an absent value throws exactly when `throw_on_fail`; a present value overwrites the
wrapped storage and returns `true`. -/
def ValueIface.Parse {T : Type} (fparse : String → Option T) (fmtName path : String)
    (value : T) (throw_on_fail : Bool) : T × Except Err Bool :=
  match fparse path with
  | none =>
      if throw_on_fail then
        (value, Except.error ⟨ErrKind.parse, notValidMsg fmtName path "variable is not set"⟩)
      else
        (value, Except.ok false)
  | some result => (result, Except.ok true)

/-- `ValueIface<T, Format>::Emit` (Interface.ipp, lines 118-122): unconditional
`emitter.Emit(dest, path, value)`. -/
def ValueIface.Emit {T D : Type} (femit : D → String → T → D) (path : String)
    (value : T) (dest : D) : D :=
  femit dest path value

/-- The probe loop of `VectorIface<T, Format>::Parse` (Interface.ipp, lines 225-245):
builds a fresh element interface at index `i, i+1, ...` and parses it with
`throw_on_fail = true`; `f i` is the outcome of the whole try block at index `i`
(the emplaced element, or the caught error).  The C++ `while (true)` exits only through
the catch, so the loop is modelled with explicit `fuel`; every theorem below
instantiates `fuel` beyond the first failing index, where the fuel-out branch is
unreachable.  Returns the accumulated elements, the final `index` and `last_error`. -/
def probeElems {E : Type} (f : Nat → Except Err E) : Nat → Nat → List E × (Nat × Option Err)
  | i, 0 => ([], (i, none))
  | i, fuel + 1 =>
      match f i with
      | Except.error e => ([], (i, some e))
      | Except.ok v =>
          let rest := probeElems f (i + 1) fuel
          (v :: rest.1, rest.2)

/-- `VectorIface<T, Format>::Parse` (Interface.ipp, lines 220-268).  After probing,
the accumulated list replaces `value_` as soon as one element parsed (the reset at
lines 239-242 fires on `index == 0`); the completeness check at lines 247-254 throws
`ParseError` when the vector ended neither pre-seeded nor populated and is not optional
— note that this check is NOT gated on `throw_on_fail` — carrying `last_error->what()`
when a last element error exists, else the generic "vector is not set" message; then the
`Validate()` hook runs under the `throw_on_fail` rule; the result is `index > 0`. -/
def VectorIface.Parse {E : Type} (f : Nat → Except Err E)
    (validate : Option (List E) → Option Err) (fmtName path : String)
    (w : Variable (List E)) (fuel : Nat) (throw_on_fail : Bool) :
    Variable (List E) × Except Err Bool :=
  let res := probeElems f 0 fuel
  let w2 := if 0 < res.2.1 then { w with value_ := some res.1 } else w
  if !w2.Initialized && !w2.Optional then
    (w2, Except.error ⟨ErrKind.parse,
      match res.2.2 with
      | some e => e.msg
      | none => notValidMsg fmtName path "vector is not set"⟩)
  else
    match validate w2.value_ with
    | none => (w2, Except.ok (0 < res.2.1))
    | some ex =>
        if throw_on_fail then
          (w2, Except.error ⟨ErrKind.parse,
            if ex.isUconfigError then ex.msg else notValidMsg fmtName path ex.msg⟩)
        else
          (w2, Except.ok (0 < res.2.1))

/-- The element walk of `VectorIface<T, Format>::Emit` (Interface.ipp, lines 276-300)
for plain elements: `ValueIface::Emit` at each element path, stopping after the last
stored index (`++index >= size`). -/
def emitElems {E D : Type} (femit : D → String → E → D) (elemPath : String → Nat → String)
    (path : String) : D → Nat → List E → D
  | dest, _, [] => dest
  | dest, i, x :: rest =>
      emitElems femit elemPath path (femit dest (elemPath path i) x) (i + 1) rest

/-- `VectorIface<T, Format>::Emit` (Interface.ipp, lines 270-301).  Dereferencing an
unset vector throws `uconfig::Error` from `Variable::Get` (caught at line 282);
`.at(index)` on a stored empty vector throws `std::out_of_range` (caught at line 287);
both are converted to `EmitError` only when the vector is non-optional and
`throw_on_fail`, else the walk silently stops.  A non-empty stored vector emits every
element at its element path. -/
def VectorIface.Emit {E D : Type} (femit : D → String → E → D)
    (elemPath : String → Nat → String) (fmtName path : String)
    (w : Variable (List E)) (dest : D) (throw_on_fail : Bool) : D × Except Err Unit :=
  match w.value_ with
  | none =>
      if !w.Optional && throw_on_fail then
        (dest, Except.error ⟨ErrKind.emit,
          notValidMsg fmtName (elemPath path 0)
            "failed to get variable value: it is not set"⟩)
      else
        (dest, Except.ok ())
  | some l =>
      match l with
      | [] =>
          if !w.Optional && throw_on_fail then
            (dest, Except.error ⟨ErrKind.emit,
              notValidMsg fmtName (elemPath path 0) "variable is not set"⟩)
          else
            (dest, Except.ok ())
      | x :: rest =>
          (emitElems femit elemPath path dest 0 (x :: rest), Except.ok ())

/-! ## The environment format backend (`format/Env.h`, `format/impl/Env.ipp`)

The process environment is modelled as an association list of name/value strings;
values are unsigned integers (`Nat`) — the repository tests exercise `int` scalars. -/

/-- The destination `std::map<std::string, std::string>` of `EnvFormat`, modelled as an
association list in insertion order. -/
abbrev EnvMap := List (String × String)

/-- `std::map::find` / `getenv` over the association-list model: first binding wins. -/
def mapFind : EnvMap → String → Option String
  | [], _ => none
  | (k, s) :: rest, path => if k = path then some s else mapFind rest path

/-- `EnvFormat::name` (Env.h, line 17). -/
def envName : String := "[ENV]"

def digitChar (d : Nat) : Char := Char.ofNat (48 + d)

def isDigitCh (c : Char) : Bool := 48 ≤ c.toNat && c.toNat ≤ 57

def digitVal (c : Char) : Nat := c.toNat - 48

/-- `EnvFormat::ToString<T>` (Env.ipp, lines 44-60) for an unsigned integer `T`:
`ostringstream << value` prints plain decimal (the `max_digits10` precision clause
only affects floating-point types, where `max_digits10 > 0`). -/
def natToChars (n : Nat) : List Char :=
  if n = 0 then [Char.ofNat 48] else ((Nat.digits 10 n).reverse.map digitChar)

/-- `EnvFormat::ToString` as a `String`. -/
def EnvFormat.ToString (n : Nat) : String := ⟨natToChars n⟩

/-- `istringstream >> result` for an unsigned integer: skip leading whitespace, allow a
leading plus sign, then require at least one decimal digit; trailing characters are left
unread and do not fail the extraction.  (C++ wrap-around of a minus-signed string is not
modelled: any such string is rejected by the round-trip check of `FromString` in both
C++ and the model, since the reprinted canonical form never carries a sign.) -/
def extractNat (cs : List Char) : Option Nat :=
  let cs1 := cs.dropWhile (fun c => c = ' ')
  let cs2 := match cs1 with
    | '+' :: t => t
    | _ => cs1
  let ds := cs2.takeWhile isDigitCh
  if ds.isEmpty then none
  else some (ds.foldl (fun a c => 10 * a + digitVal c) 0)

/-- `EnvFormat::FromString<T>` (Env.ipp, lines 30-42) for an unsigned integer `T`:
extract with `>>`, then reject unless reprinting the result reproduces the input
exactly (`ss.fail() || ToString(result) != str`). -/
def EnvFormat.FromString (str : String) : Option Nat :=
  match extractNat str.data with
  | none => none
  | some result =>
      if EnvFormat.ToString result = str then some result else none

/-- `EnvFormat::Parse<T>` (Env.ipp, lines 9-17): `getenv(path)`, then `FromString`. -/
def EnvFormat.Parse (env : EnvMap) (path : String) : Option Nat :=
  match mapFind env path with
  | none => none
  | some s => EnvFormat.FromString s

/-- `EnvFormat::Emit<T>` (Env.ipp, lines 19-23): `dest->emplace(path, ToString(value))`
— `std::map::emplace` inserts only when the key is not already present.  (The model
keeps insertion order where `std::map` orders by key; the claims below compare the set
of inserted entries, which agrees.) -/
def EnvFormat.Emit (dest : EnvMap) (path : String) (value : Nat) : EnvMap :=
  if (mapFind dest path).isSome then dest
  else dest ++ [(path, EnvFormat.ToString value)]

/-- `EnvFormat::VectorElementPath` (Env.ipp, lines 25-28):
`vector_path + "_" + std::to_string(index)` (`std::to_string` prints the same decimal
form as `ToString`). -/
def EnvFormat.VectorElementPath (vector_path : String) (index : Nat) : String :=
  vector_path ++ "_" ++ EnvFormat.ToString index

/-- One probe step of `VectorIface::Parse` for a `Vector<T>` of plain unsigned integers:
`T element;` default-constructs to `0`, then a `ValueIface` at
`parser.VectorElementPath(Path(), index)` parses it with `throw_on_fail = true`
(Interface.ipp, lines 228-237); the loop keeps the element whenever no error was
thrown. -/
def elemParseVal (fparse : String → Option Nat) (vector_path : String) (i : Nat) :
    Except Err Nat :=
  match ValueIface.Parse fparse envName (EnvFormat.VectorElementPath vector_path i) 0 true with
  | (v, Except.ok _) => Except.ok v
  | (_, Except.error e) => Except.error e

/-! ## The configuration tree

A `uconfig::Config` declares a fixed set of children (Variables, Vectors, nested
Configs).  `ConfigIface` rebuilds the child interface list at every pass from those
declarations, so a pass over a config is a traversal of a static tree: `Node` below is
that tree.  A variable node carries its registered path and a `hookFail` flag standing
for a user `Validate()` override that rejects any value (`false` is the base-class
no-op hook); vector nodes hold plain integer elements; group nodes carry the
constructor's `optional` flag and the declared children (the group-level `Validate()`
is the base-class no-op). -/
inductive Node where
  | nvar (path : String) (hookFail : Bool) (v : Variable Nat)
  | nvec (path : String) (w : Variable (List Nat))
  | ngroup (optional_ : Bool) (children : List Node)
  deriving Repr

/-- The `Validate()` hook of a variable node. -/
def varHook (hookFail : Bool) : Nat → Option Err :=
  fun _ => if hookFail then some ⟨ErrKind.std, "hook rejected value"⟩ else none

/-- `Interface::Optional` per node kind: `VariableIface`/`VectorIface` read the
object's flag, `ConfigIface::Optional` (Interface.ipp, lines 85-89) reads the config's
constructor flag. -/
def Node.Optional : Node → Bool
  | Node.nvar _ _ v => v.optional_
  | Node.nvec _ w => w.optional_
  | Node.ngroup opt _ => opt

mutual

/-- `Interface::Initialized` per node kind; for a group this is
`ConfigIface::Initialized` (Interface.ipp, lines 74-83) = `Config::Initialized`
(Objects.ipp, lines 61-70): false iff some directly registered non-optional child is
uninitialized. -/
def Node.Initialized : Node → Bool
  | Node.nvar _ _ v => v.value_.isSome
  | Node.nvec _ w => w.value_.isSome
  | Node.ngroup _ cs => childrenInit cs

/-- The loop of `Config::Initialized`: `if (!elem->Initialized() && !elem->Optional())
return false;`. -/
def childrenInit : List Node → Bool
  | [] => true
  | c :: rest => (c.Initialized || c.Optional) && childrenInit rest

end

mutual

/-- `Parse` over the tree (`fp` is the format's scalar parse with the source baked in,
`fuel` bounds every sequence probe loop).  Leaves delegate to `VariableIface::Parse` /
`VectorIface::Parse`; a group runs `ConfigIface::Parse` (Interface.ipp, lines 21-52). -/
def Node.Parse (fp : String → Option Nat) (fuel : Nat) (throw_on_fail : Bool) :
    Node → Node × Except Err Bool
  | Node.nvar path hookFail v =>
      let r := VariableIface.Parse fp (varHook hookFail) envName path v throw_on_fail
      (Node.nvar path hookFail r.1, r.2)
  | Node.nvec path w =>
      let r := VectorIface.Parse (fun i => elemParseVal fp path i) (fun _ => none)
        envName path w fuel throw_on_fail
      (Node.nvec path r.1, r.2)
  | Node.ngroup opt cs =>
      let r := parseChildren fp fuel throw_on_fail opt cs
      (Node.ngroup opt r.1, r.2)

/-- The child loop of `ConfigIface::Parse` (Interface.ipp, lines 26-38): each child is
attempted; a child's error is caught and re-thrown as `ParseError(ex.what())` iff the
GROUP itself is non-optional (`ConfigIface::Optional`, i.e. the `opt` argument) and
`throw_on_fail` — the re-throw leaves the loop, so the remaining children keep their
states; a swallowed error counts as `iface_parsed = false` and the loop continues.
`config_parsed` is the running OR of the children's results.  (The group-level
`cfg_validate_` hook that follows the loop is the base-class no-op.) -/
def parseChildren (fp : String → Option Nat) (fuel : Nat) (throw_on_fail : Bool)
    (opt : Bool) : List Node → List Node × Except Err Bool
  | [] => ([], Except.ok false)
  | c :: rest =>
      let rc := Node.Parse fp fuel throw_on_fail c
      match rc.2 with
      | Except.ok b =>
          let rr := parseChildren fp fuel throw_on_fail opt rest
          match rr.2 with
          | Except.ok brest => (rc.1 :: rr.1, Except.ok (b || brest))
          | Except.error e => (rc.1 :: rr.1, Except.error e)
      | Except.error e =>
          if !opt && throw_on_fail then
            (rc.1 :: rest, Except.error ⟨ErrKind.parse, e.msg⟩)
          else
            let rr := parseChildren fp fuel throw_on_fail opt rest
            (rc.1 :: rr.1, rr.2)

end

mutual

/-- `Emit` over the tree into an `EnvFormat` destination.  Leaves delegate to
`VariableIface::Emit` / `VectorIface::Emit`; a group runs `ConfigIface::Emit`
(Interface.ipp, lines 54-66) — note there is no `Initialized()` gate anywhere on this
path. -/
def Node.Emit (throw_on_fail : Bool) : Node → EnvMap → EnvMap × Except Err Unit
  | Node.nvar path _ v, dest =>
      VariableIface.Emit EnvFormat.Emit envName path v dest throw_on_fail
  | Node.nvec path w, dest =>
      VectorIface.Emit EnvFormat.Emit EnvFormat.VectorElementPath envName path w dest
        throw_on_fail
  | Node.ngroup opt cs, dest => emitChildren throw_on_fail opt cs dest

/-- The child loop of `ConfigIface::Emit` (Interface.ipp, lines 57-65): each child is
attempted in declaration order; a child's error is re-thrown as `EmitError(ex.what())`
iff the group itself is non-optional and `throw_on_fail`, else the loop continues. -/
def emitChildren (throw_on_fail : Bool) (opt : Bool) :
    List Node → EnvMap → EnvMap × Except Err Unit
  | [], dest => (dest, Except.ok ())
  | c :: rest, dest =>
      let rc := Node.Emit throw_on_fail c dest
      match rc.2 with
      | Except.ok _ => emitChildren throw_on_fail opt rest rc.1
      | Except.error e =>
          if !opt && throw_on_fail then
            (rc.1, Except.error ⟨ErrKind.emit, e.msg⟩)
          else
            emitChildren throw_on_fail opt rest rc.1

end

/-- Did an individual `Parse` call report `parsed == true` (rather than `false` or a
thrown error)? -/
def parsedTrue : Except Err Bool → Bool
  | Except.ok true => true
  | _ => false

/-- Did an individual `Parse` call throw? -/
def threw {A : Type} : Except Err A → Bool
  | Except.error _ => true
  | _ => false

/-- The environment holding the canonical string of `vs.get j` at the element path of
index `i + j` for each `j < vs.length`, and nothing at later element paths of `p`. -/
def mkVecEnv (p : String) : Nat → List Nat → EnvMap
  | _, [] => []
  | i, v :: rest => (EnvFormat.VectorElementPath p i, EnvFormat.ToString v) :: mkVecEnv p (i + 1) rest

mutual

/-- Reference description of what a lenient `Emit` pass writes (used for the corrected
form of the emit-sparsity claim): an initialized leaf writes its entries, an
uninitialized leaf writes nothing, and a group concatenates its children in declaration
order with NO `Initialized()` gate. -/
def specEmit : Node → EnvMap → EnvMap
  | Node.nvar path _ v, dest =>
      match v.value_ with
      | none => dest
      | some x => EnvFormat.Emit dest path x
  | Node.nvec path w, dest =>
      match w.value_ with
      | none => dest
      | some l => emitElems EnvFormat.Emit EnvFormat.VectorElementPath path dest 0 l
  | Node.ngroup _ cs, dest => specEmitChildren cs dest

def specEmitChildren : List Node → EnvMap → EnvMap
  | [], dest => dest
  | c :: rest, dest => specEmitChildren rest (specEmit c dest)

end

mutual

/-- No leaf of the subtree holds a value (every Variable and Vector is unset). -/
def Node.allUnset : Node → Bool
  | Node.nvar _ _ v => v.value_.isNone
  | Node.nvec _ w => w.value_.isNone
  | Node.ngroup _ cs => childrenAllUnset cs

def childrenAllUnset : List Node → Bool
  | [] => true
  | c :: rest => c.allUnset && childrenAllUnset rest

end

/-! ## Theorems -/

/-- C4: for a Scalar whose format parse yields nothing: if the Scalar is already
initialized (e.g. pre-seeded with a default), `Parse` returns `false` without error and
the stored state — hence `Initialized() == true` — is unchanged; if it is
uninitialized, `Parse` throws a `ParseError` naming the path when strict, and when
lenient returns `false` leaving the state — hence `Initialized() == false` —
unchanged. -/
theorem scalar_absent_parse {T : Type} (fparse : String → Option T)
    (validate : T → Option Err) (fmtName path : String) (v : Variable T) (t : Bool)
    (habs : fparse path = none) :
    (v.Initialized = true →
      VariableIface.Parse fparse validate fmtName path v t = (v, Except.ok false)) ∧
    (v.Initialized = false →
      (t = true → VariableIface.Parse fparse validate fmtName path v t =
        (v, Except.error ⟨ErrKind.parse, notValidMsg fmtName path "variable is not set"⟩)) ∧
      (t = false →
        VariableIface.Parse fparse validate fmtName path v t = (v, Except.ok false))) := by
  unfold VariableIface.Parse
  rw [habs]
  refine ⟨fun hinit => ?_, fun hinit => ⟨fun ht => ?_, fun ht => ?_⟩⟩
  · simp [hinit]
  · simp [hinit, ht]
  · simp [hinit, ht]

/-- Witness for C4: a pre-seeded optional scalar with the empty source keeps its
default, and a fresh mandatory scalar raises when strict. -/
theorem scalar_absent_parse_witness :
    VariableIface.Parse (fun _ => (none : Option Nat)) (fun _ => none) envName "INT"
      (Variable.withDefault 111) false = (Variable.withDefault 111, Except.ok false) :=
  (scalar_absent_parse (fun _ => (none : Option Nat)) (fun _ => none) envName "INT"
    (Variable.withDefault 111) false rfl).1 rfl

/-- C10: when the format parse yields a value, `VariableIface::Parse` stores it (making
`Initialized() == true`) before running the validation hook; if the hook then fails,
the error propagates when strict and is swallowed (returning `true`) when lenient, and
in both cases the variable keeps the new, hook-rejected value. -/
theorem scalar_hook_failure_keeps_value {T : Type} (fparse : String → Option T)
    (validate : T → Option Err) (fmtName path : String) (v : Variable T) (t : Bool)
    (x : T) (ex : Err) (hx : fparse path = some x) (hex : validate x = some ex) :
    (VariableIface.Parse fparse validate fmtName path v t).1 = v.assign x ∧
    ((VariableIface.Parse fparse validate fmtName path v t).1).Initialized = true ∧
    (t = true → (VariableIface.Parse fparse validate fmtName path v t).2 =
      Except.error ⟨ErrKind.parse,
        if ex.isUconfigError then ex.msg else notValidMsg fmtName path ex.msg⟩) ∧
    (t = false → (VariableIface.Parse fparse validate fmtName path v t).2 =
      Except.ok true) := by
  unfold VariableIface.Parse
  rw [hx]
  dsimp only
  rw [hex]
  refine ⟨?_, ?_, fun ht => ?_, fun ht => ?_⟩
  · cases t <;> simp [Variable.assign]
  · cases t <;> simp [Variable.assign, Variable.Initialized]
  · simp [ht]
  · simp [ht]

/-- Witness for C10: a value of `5` rejected by the hook is kept, strict mode
propagates the hook error. -/
theorem scalar_hook_failure_keeps_value_witness :
    (VariableIface.Parse (fun _ => some 5) (varHook true) envName "X"
      (Variable.empty Nat) true).1 = (Variable.empty Nat).assign 5 :=
  (scalar_hook_failure_keeps_value (fun _ => some 5) (varHook true) envName "X"
    (Variable.empty Nat) true 5 ⟨ErrKind.std, "hook rejected value"⟩ rfl rfl).1

/-- C9: for a non-string scalar, the text backend parses a string to a value exactly
when extraction succeeds and reprinting the extracted value reproduces the string;
every string failing that round trip yields `none` (never an error), and
`EnvFormat::Parse` is the composition of the environment lookup with that check. -/
theorem env_fromstring_roundtrip :
    (∀ (s : String) (v : Nat),
      EnvFormat.FromString s = some v ↔
        (extractNat s.data = some v ∧ EnvFormat.ToString v = s)) ∧
    (∀ (env : EnvMap) (path : String) (v : Nat),
      EnvFormat.Parse env path = some v ↔
        ∃ str, mapFind env path = some str ∧ extractNat str.data = some v ∧
          EnvFormat.ToString v = str) := by
  have hfs : ∀ (s : String) (v : Nat),
      EnvFormat.FromString s = some v ↔
        (extractNat s.data = some v ∧ EnvFormat.ToString v = s) := by
    intro s v
    unfold EnvFormat.FromString
    cases hext : extractNat s.data with
    | none => simp
    | some r =>
        by_cases hts : EnvFormat.ToString r = s
        · simp only [hts, if_true]
          constructor
          · intro h
            cases h
            exact ⟨rfl, hts⟩
          · intro h
            exact h.1
        · simp only [hts, if_false]
          constructor
          · intro h
            cases h
          · intro h
            cases h.1
            exact absurd h.2 hts
  refine ⟨hfs, fun env path v => ?_⟩
  unfold EnvFormat.Parse
  cases hm : mapFind env path with
  | none => simp
  | some str =>
      constructor
      · intro h
        exact ⟨str, rfl, ((hfs str v).mp h).1, ((hfs str v).mp h).2⟩
      · intro ⟨str2, hstr2, hext, hts⟩
        cases hstr2
        exact (hfs str v).mpr ⟨hext, hts⟩

theorem childrenInit_eq_true_iff (cs : List Node) :
    childrenInit cs = true ↔ ∀ c ∈ cs, c.Optional = false → c.Initialized = true := by
  induction cs with
  | nil => simp [childrenInit]
  | cons c rest ih =>
      simp only [childrenInit, Bool.and_eq_true, Bool.or_eq_true, List.mem_cons]
      constructor
      · rintro ⟨h1, h2⟩ d hd hdo
        rcases hd with rfl | hd
        · rcases h1 with h | h
          · exact h
          · rw [hdo] at h
            cases h
        · exact (ih.mp h2) d hd hdo
      · intro h
        refine ⟨?_, ih.mpr (fun d hd hdo => h d (Or.inr hd) hdo)⟩
        by_cases hco : c.Optional = true
        · exact Or.inr hco
        · exact Or.inl (h c (Or.inl rfl) (by simpa using hco))

/-- C5: a Group is `Initialized() == true` iff every directly registered non-optional
child reports `Initialized() == true`; an optional child's state never enters the
condition, and a nested Group enters only through its own `Initialized()` value. -/
theorem group_initialized_iff_children (opt : Bool) (cs : List Node) :
    Node.Initialized (Node.ngroup opt cs) = true ↔
      ∀ c ∈ cs, c.Optional = false → c.Initialized = true := by
  rw [Node.Initialized]
  exact childrenInit_eq_true_iff cs

@[simp] theorem parsedTrue_ok (b : Bool) : parsedTrue (Except.ok b) = b := by
  cases b <;> rfl

@[simp] theorem parsedTrue_error (e : Err) : parsedTrue (Except.error e) = false := rfl

theorem parseChildren_ok_any (fp : String → Option Nat) (fuel : Nat) (t opt : Bool) :
    ∀ (cs cs2 : List Node) (b : Bool),
      parseChildren fp fuel t opt cs = (cs2, Except.ok b) →
      b = cs.any (fun c => parsedTrue (Node.Parse fp fuel t c).2) := by
  intro cs
  induction cs with
  | nil =>
      intro cs2 b h
      rw [parseChildren] at h
      cases h
      rfl
  | cons c rest ih =>
      intro cs2 b h
      rw [parseChildren] at h
      cases hc : (Node.Parse fp fuel t c).2 with
      | ok bc =>
          rw [hc] at h
          dsimp only at h
          cases hr : parseChildren fp fuel t opt rest with
          | mk rr1 rr2 =>
              rw [hr] at h
              cases rr2 with
              | ok brest =>
                  dsimp only at h
                  cases h
                  simp only [List.any_cons, hc, parsedTrue_ok]
                  rw [ih rr1 brest hr]
              | error e =>
                  dsimp only at h
                  cases h
      | error e =>
          rw [hc] at h
          dsimp only at h
          by_cases hgate : (!opt && t) = true
          · rw [if_pos hgate] at h
            cases h
          · rw [if_neg hgate] at h
            cases hr : parseChildren fp fuel t opt rest with
            | mk rr1 rr2 =>
                rw [hr] at h
                dsimp only at h
                cases h
                simp only [List.any_cons, hc, parsedTrue_error, Bool.false_or]
                exact ih rr1 b hr

/-- C8: whenever a Group's `Parse` returns (instead of throwing), its result is `true`
iff at least one child's own `Parse` outcome was `parsed == true`: some fields present
among missing ones still yield `true`, while nothing present yields `false`. -/
theorem group_parsed_iff_any_child (fp : String → Option Nat) (fuel : Nat) (t opt : Bool)
    (cs : List Node) (g2 : Node) (b : Bool)
    (h : Node.Parse fp fuel t (Node.ngroup opt cs) = (g2, Except.ok b)) :
    b = cs.any (fun c => parsedTrue (Node.Parse fp fuel t c).2) := by
  rw [Node.Parse] at h
  cases hp : parseChildren fp fuel t opt cs with
  | mk cs2 r =>
      rw [hp] at h
      dsimp only at h
      cases h
      exact parseChildren_ok_any fp fuel t opt cs cs2 b hp

theorem digitVal_digitChar (d : Nat) (hd : d < 10) : digitVal (digitChar d) = d := by
  interval_cases d <;> decide

theorem isDigitCh_digitChar (d : Nat) (hd : d < 10) : isDigitCh (digitChar d) = true := by
  interval_cases d <;> decide

theorem isDigitCh_ne_space {c : Char} (h : isDigitCh c = true) : ¬(c = ' ') := by
  intro hc
  subst hc
  simp [isDigitCh] at h

theorem isDigitCh_ne_plus {c : Char} (h : isDigitCh c = true) : c ≠ '+' := by
  intro hc
  subst hc
  simp [isDigitCh] at h

theorem extractNat_all_digits (cs : List Char) (hne : cs ≠ [])
    (hdig : ∀ c ∈ cs, isDigitCh c = true) :
    extractNat cs = some (cs.foldl (fun a c => 10 * a + digitVal c) 0) := by
  unfold extractNat
  cases cs with
  | nil => exact absurd rfl hne
  | cons c0 tl =>
      have h0 := hdig c0 (List.mem_cons_self _ _)
      have hdrop : (c0 :: tl).dropWhile (fun c => decide (c = ' ')) = c0 :: tl := by
        rw [List.dropWhile_cons]
        simp [isDigitCh_ne_space h0]
      rw [hdrop]
      dsimp only
      have hplus : c0 ≠ '+' := isDigitCh_ne_plus h0
      have hmatch : (match c0 :: tl with
          | '+' :: t => t
          | _ => c0 :: tl) = c0 :: tl := by
        split
        · rename_i t heq
          injection heq with h1 h2
          exact absurd h1 hplus
        · rfl
      rw [hmatch]
      rw [List.takeWhile_eq_self_iff.mpr hdig]
      simp

theorem foldl_rev_digits :
    ∀ (l : List Nat), (∀ d ∈ l, d < 10) → ∀ (a : Nat),
      ((l.reverse.map digitChar).foldl (fun acc c => 10 * acc + digitVal c) a) =
        a * 10 ^ l.length + Nat.ofDigits 10 l := by
  intro l
  induction l with
  | nil =>
      intro _ a
      simp [Nat.ofDigits_nil]
  | cons d tl ih =>
      intro hlt a
      have hd : d < 10 := hlt d (List.mem_cons_self _ _)
      have htl : ∀ x ∈ tl, x < 10 := fun x hx => hlt x (List.mem_cons.mpr (Or.inr hx))
      simp only [List.reverse_cons, List.map_append, List.map_cons, List.map_nil,
        List.foldl_append, List.foldl_cons, List.foldl_nil]
      rw [ih htl a, digitVal_digitChar d hd, Nat.ofDigits_cons, List.length_cons,
        pow_succ]
      ring

theorem extract_toString (n : Nat) : extractNat (EnvFormat.ToString n).data = some n := by
  by_cases h0 : n = 0
  · subst h0
    decide
  · show extractNat (natToChars n) = some n
    unfold natToChars
    rw [if_neg h0]
    have hlt : ∀ d ∈ Nat.digits 10 n, d < 10 := fun d hd =>
      Nat.digits_lt_base (by norm_num) hd
    have hdig : ∀ c ∈ (Nat.digits 10 n).reverse.map digitChar, isDigitCh c = true := by
      intro c hc
      rcases List.mem_map.mp hc with ⟨d, hd, rfl⟩
      exact isDigitCh_digitChar d (hlt d (List.mem_reverse.mp hd))
    have hne : (Nat.digits 10 n).reverse.map digitChar ≠ [] := by
      simp [Nat.digits_ne_nil_iff_ne_zero.mpr h0]
    rw [extractNat_all_digits _ hne hdig]
    rw [foldl_rev_digits (Nat.digits 10 n) hlt 0]
    simp [Nat.ofDigits_digits]

theorem fromString_toString (n : Nat) :
    EnvFormat.FromString (EnvFormat.ToString n) = some n := by
  unfold EnvFormat.FromString
  rw [extract_toString]
  simp

theorem envToString_inj {a b : Nat} (h : EnvFormat.ToString a = EnvFormat.ToString b) :
    a = b := by
  have ha := fromString_toString a
  rw [h, fromString_toString b] at ha
  exact (Option.some.inj ha).symm

theorem string_append_cancel_left {s a b : String} (h : s ++ a = s ++ b) : a = b := by
  have hd : (s ++ a).data = (s ++ b).data := congrArg String.data h
  rw [String.data_append, String.data_append] at hd
  have hab := List.append_cancel_left hd
  cases a
  cases b
  exact congrArg String.mk hab

theorem vecPath_inj {p : String} {i j : Nat}
    (h : EnvFormat.VectorElementPath p i = EnvFormat.VectorElementPath p j) : i = j := by
  unfold EnvFormat.VectorElementPath at h
  exact envToString_inj (string_append_cancel_left h)

theorem mapFind_append (l1 l2 : EnvMap) (k : String) :
    mapFind (l1 ++ l2) k = match mapFind l1 k with
      | some v => some v
      | none => mapFind l2 k := by
  induction l1 with
  | nil => rfl
  | cons kv rest ih =>
      cases kv with
      | mk key s =>
          rw [List.cons_append, mapFind, mapFind]
          by_cases hk : key = k
          · rw [if_pos hk, if_pos hk]
          · rw [if_neg hk, if_neg hk, ih]

theorem mapFind_mkVecEnv (p : String) :
    ∀ (vs : List Nat) (i j : Nat),
      mapFind (mkVecEnv p i vs) (EnvFormat.VectorElementPath p (i + j)) =
        (vs.get? j).map EnvFormat.ToString := by
  intro vs
  induction vs with
  | nil =>
      intro i j
      simp [mkVecEnv, mapFind]
  | cons v tl ih =>
      intro i j
      rw [mkVecEnv, mapFind]
      cases j with
      | zero =>
          rw [if_pos (by rw [Nat.add_zero])]
          rfl
      | succ k =>
          have hne : ¬(EnvFormat.VectorElementPath p i =
              EnvFormat.VectorElementPath p (i + (k + 1))) := by
            intro hh
            have := vecPath_inj hh
            omega
          rw [if_neg hne, show i + (k + 1) = (i + 1) + k by omega, ih (i + 1) k]
          rfl

theorem elemParse_mkVecEnv (p : String) (vs : List Nat) (j : Nat) :
    elemParseVal (EnvFormat.Parse (mkVecEnv p 0 vs)) p j =
      (match vs.get? j with
      | some v => Except.ok v
      | none => Except.error ⟨ErrKind.parse,
          notValidMsg envName (EnvFormat.VectorElementPath p j) "variable is not set"⟩) := by
  have hfind := mapFind_mkVecEnv p vs 0 j
  rw [Nat.zero_add] at hfind
  unfold elemParseVal ValueIface.Parse EnvFormat.Parse
  rw [hfind]
  cases hv : vs.get? j with
  | none => rfl
  | some v =>
      dsimp only [Option.map]
      rw [fromString_toString v]

theorem probe_mkVecEnv (p : String) (vs : List Nat) :
    ∀ (fuel j : Nat), j ≤ vs.length → vs.length < j + fuel →
      probeElems (fun i => elemParseVal (EnvFormat.Parse (mkVecEnv p 0 vs)) p i) j fuel =
        (vs.drop j, (vs.length, some ⟨ErrKind.parse,
          notValidMsg envName (EnvFormat.VectorElementPath p vs.length)
            "variable is not set"⟩)) := by
  intro fuel
  induction fuel with
  | zero =>
      intro j h1 h2
      omega
  | succ f ih =>
      intro j h1 h2
      rw [probeElems]
      rw [elemParse_mkVecEnv]
      by_cases hj : j = vs.length
      · subst hj
        rw [List.get?_len_le (le_refl _)]
        dsimp only
        rw [List.drop_length]
      · have hjlt : j < vs.length := lt_of_le_of_ne h1 hj
        rw [List.get?_eq_get hjlt]
        dsimp only
        rw [ih (j + 1) (by omega) (by omega)]
        dsimp only
        rw [← List.drop_eq_get_cons hjlt]

/-- C6: with element paths for indices 0 and 2 bound in the source but index 1 absent,
the probe visits indices in increasing order from 0 and stops at the first failure, so
the parsed sequence holds exactly the element of index 0, stored contiguously. -/
theorem vector_never_parses_gap (v0 v2 : Nat) (p : String) (t : Bool) :
    VectorIface.Parse
      (fun i => elemParseVal (EnvFormat.Parse
        [(EnvFormat.VectorElementPath p 0, EnvFormat.ToString v0),
         (EnvFormat.VectorElementPath p 2, EnvFormat.ToString v2)]) p i)
      (fun _ => none) envName p (Variable.empty (List Nat)) 5 t =
      ((⟨false, some [v0]⟩ : Variable (List Nat)), Except.ok true) := by
  have h01 : ¬(EnvFormat.VectorElementPath p 0 = EnvFormat.VectorElementPath p 1) := by
    intro hh
    exact absurd (vecPath_inj hh) (by omega)
  have h21 : ¬(EnvFormat.VectorElementPath p 2 = EnvFormat.VectorElementPath p 1) := by
    intro hh
    exact absurd (vecPath_inj hh) (by omega)
  have hP0 : EnvFormat.Parse
      [(EnvFormat.VectorElementPath p 0, EnvFormat.ToString v0),
       (EnvFormat.VectorElementPath p 2, EnvFormat.ToString v2)]
      (EnvFormat.VectorElementPath p 0) = some v0 := by
    unfold EnvFormat.Parse mapFind
    rw [if_pos rfl]
    exact fromString_toString v0
  have hP1 : EnvFormat.Parse
      [(EnvFormat.VectorElementPath p 0, EnvFormat.ToString v0),
       (EnvFormat.VectorElementPath p 2, EnvFormat.ToString v2)]
      (EnvFormat.VectorElementPath p 1) = none := by
    unfold EnvFormat.Parse
    simp [mapFind, h01, h21]
  have helem0 : elemParseVal (EnvFormat.Parse
      [(EnvFormat.VectorElementPath p 0, EnvFormat.ToString v0),
       (EnvFormat.VectorElementPath p 2, EnvFormat.ToString v2)]) p 0 =
      Except.ok v0 := by
    unfold elemParseVal ValueIface.Parse
    rw [hP0]
  have helem1 : elemParseVal (EnvFormat.Parse
      [(EnvFormat.VectorElementPath p 0, EnvFormat.ToString v0),
       (EnvFormat.VectorElementPath p 2, EnvFormat.ToString v2)]) p 1 =
      Except.error ⟨ErrKind.parse,
        notValidMsg envName (EnvFormat.VectorElementPath p 1) "variable is not set"⟩ := by
    unfold elemParseVal ValueIface.Parse
    rw [hP1]
    rfl
  have hprobe : probeElems (fun i => elemParseVal (EnvFormat.Parse
      [(EnvFormat.VectorElementPath p 0, EnvFormat.ToString v0),
       (EnvFormat.VectorElementPath p 2, EnvFormat.ToString v2)]) p i) 0 5 =
      ([v0], (1, some ⟨ErrKind.parse,
        notValidMsg envName (EnvFormat.VectorElementPath p 1) "variable is not set"⟩)) := by
    rw [probeElems, helem0]
    dsimp only
    rw [probeElems, helem1]
  unfold VectorIface.Parse
  rw [hprobe]
  dsimp only
  simp [Variable.Initialized, Variable.Optional, Variable.empty]

/-- C1 (amended): the completeness check of `VectorIface::Parse` — the vector ended
neither pre-seeded nor populated and is not optional — throws a `ParseError` carrying
the last element error REGARDLESS of the `throw_on_fail` flag; a lenient caller parsing
the vector through its enclosing Group nevertheless observes no exception, because the
group's catch (whose re-throw is gated on the flag) swallows it, leaving the vector
node with `Initialized() == false` for the caller to inspect. -/
theorem vector_completeness_raises_always :
    (∀ (E : Type) (f : Nat → Except Err E) (validate : Option (List E) → Option Err)
       (fmtName p : String) (w : Variable (List E)) (fuel : Nat) (t : Bool) (e : Err),
      f 0 = Except.error e → 0 < fuel → w.value_ = none → w.optional_ = false →
      VectorIface.Parse f validate fmtName p w fuel t =
        (w, Except.error ⟨ErrKind.parse, e.msg⟩)) ∧
    (∀ (q : String) (opt : Bool),
      Node.Parse (fun _ => none) 1 false
          (Node.ngroup opt [Node.nvec q (Variable.empty (List Nat))]) =
        (Node.ngroup opt [Node.nvec q (Variable.empty (List Nat))], Except.ok false)) := by
  constructor
  · intro E f validate fmtName p w fuel t e hf hfuel hval hopt
    obtain ⟨f2, rfl⟩ : ∃ f2, fuel = f2 + 1 := ⟨fuel - 1, by omega⟩
    unfold VectorIface.Parse
    rw [probeElems, hf]
    dsimp only
    simp [Variable.Initialized, Variable.Optional, hval, hopt]
  · intro q opt
    have helem : elemParseVal (fun _ => none) q 0 =
        Except.error ⟨ErrKind.parse,
          notValidMsg envName (EnvFormat.VectorElementPath q 0) "variable is not set"⟩ := by
      unfold elemParseVal ValueIface.Parse
      rfl
    have hvec : VectorIface.Parse (fun i => elemParseVal (fun _ => none) q i)
        (fun _ => none) envName q (Variable.empty (List Nat)) 1 false =
        (Variable.empty (List Nat), Except.error ⟨ErrKind.parse,
          notValidMsg envName (EnvFormat.VectorElementPath q 0) "variable is not set"⟩) := by
      unfold VectorIface.Parse
      rw [probeElems, helem]
      dsimp only
      simp [Variable.Initialized, Variable.Optional, Variable.empty]
    rw [Node.Parse, parseChildren, Node.Parse]
    rw [hvec]
    dsimp only
    rw [parseChildren]
    simp

/-- Counterexample to C1 as stated: a non-optional, non-pre-seeded sequence over an
empty source, parsed with `throw_on_fail = false` (strict flag NOT set), still raises
`ParseError` from the completeness check of `VectorIface::Parse`. -/
theorem vector_completeness_lenient_cex :
    VectorIface.Parse (fun i => elemParseVal (EnvFormat.Parse []) "VEC" i)
      (fun _ => none) envName "VEC" (Variable.empty (List Nat)) 5 false =
      (Variable.empty (List Nat), Except.error ⟨ErrKind.parse,
        notValidMsg envName (EnvFormat.VectorElementPath "VEC" 0)
          "variable is not set"⟩) := by
  rfl

/-- Witness for C1 (amended): the general completeness theorem applied at the concrete
strict-flag-unset instance of the counterexample. -/
theorem vector_completeness_raises_always_witness :
    VectorIface.Parse (fun i => elemParseVal (EnvFormat.Parse []) "VEC" i)
      (fun _ => none) envName "VEC" (Variable.empty (List Nat)) 5 false =
      (Variable.empty (List Nat), Except.error ⟨ErrKind.parse,
        notValidMsg envName (EnvFormat.VectorElementPath "VEC" 0)
          "variable is not set"⟩) :=
  vector_completeness_raises_always.1 Nat
    (fun i => elemParseVal (EnvFormat.Parse []) "VEC" i) (fun _ => none) envName "VEC"
    (Variable.empty (List Nat)) 5 false
    ⟨ErrKind.parse, notValidMsg envName (EnvFormat.VectorElementPath "VEC" 0)
      "variable is not set"⟩
    (by rfl) (by omega) rfl rfl

theorem emitElems_fresh (p : String) :
    ∀ (suf : List Nat) (i : Nat) (dest : EnvMap),
      (∀ j, i ≤ j → mapFind dest (EnvFormat.VectorElementPath p j) = none) →
      emitElems EnvFormat.Emit EnvFormat.VectorElementPath p dest i suf =
        dest ++ mkVecEnv p i suf := by
  intro suf
  induction suf with
  | nil =>
      intro i dest _
      rw [emitElems, mkVecEnv, List.append_nil]
  | cons v tl ih =>
      intro i dest h
      rw [emitElems, mkVecEnv]
      have hstep : EnvFormat.Emit dest (EnvFormat.VectorElementPath p i) v =
          dest ++ [(EnvFormat.VectorElementPath p i, EnvFormat.ToString v)] := by
        unfold EnvFormat.Emit
        rw [h i (le_refl i)]
        rfl
      rw [hstep]
      rw [ih (i + 1) (dest ++ [(EnvFormat.VectorElementPath p i, EnvFormat.ToString v)])
        (fun j hj => by
          rw [mapFind_append, h j (by omega), mapFind,
            if_neg (fun hh => by have := vecPath_inj hh; omega)]
          rfl)]
      rw [List.append_assoc]
      rfl

theorem vector_parse_mkVecEnv (p : String) (vs : List Nat) (w : Variable (List Nat))
    (t : Bool) (hn : 0 < vs.length) :
    VectorIface.Parse (fun i => elemParseVal (EnvFormat.Parse (mkVecEnv p 0 vs)) p i)
      (fun _ => none) envName p w (vs.length + 1) t =
      ((⟨w.optional_, some vs⟩ : Variable (List Nat)), Except.ok true) := by
  unfold VectorIface.Parse
  rw [probe_mkVecEnv p vs (vs.length + 1) 0 (by omega) (by omega)]
  dsimp only
  rw [List.drop_zero]
  simp [hn, Variable.Initialized, Variable.Optional]

theorem vector_emit_mkVecEnv (p : String) (vs : List Nat) (opt t : Bool)
    (hn : vs ≠ []) :
    VectorIface.Emit EnvFormat.Emit EnvFormat.VectorElementPath envName p
      (⟨opt, some vs⟩ : Variable (List Nat)) [] t = (mkVecEnv p 0 vs, Except.ok ()) := by
  unfold VectorIface.Emit
  cases vs with
  | nil => exact absurd rfl hn
  | cons v tl =>
      dsimp only
      rw [emitElems_fresh p (v :: tl) 0 [] (fun _ _ => rfl)]
      rfl

/-- C7: a source holding convertible values at element paths `0..n-1` and nothing at
index `n` parses to exactly those `n` elements; emitting the parsed sequence writes
back exactly the same `n` entries at the same element paths (the emitted map IS the
source); and re-parsing the emitted output leaves the tree unchanged and again returns
`true` — the parse/emit round trip is idempotent.  (Because `FromString` insists the
reprinted value reproduce the source string, a convertible source entry is exactly a
canonical entry `EnvFormat.ToString v`, which is how the source is quantified.) -/
theorem vector_parse_emit_roundtrip (p : String) (vs : List Nat)
    (w0 : Variable (List Nat)) (t1 t2 t3 : Bool) (hn : 0 < vs.length) :
    VectorIface.Parse (fun i => elemParseVal (EnvFormat.Parse (mkVecEnv p 0 vs)) p i)
        (fun _ => none) envName p w0 (vs.length + 1) t1 =
      ((⟨w0.optional_, some vs⟩ : Variable (List Nat)), Except.ok true) ∧
    VectorIface.Emit EnvFormat.Emit EnvFormat.VectorElementPath envName p
        (⟨w0.optional_, some vs⟩ : Variable (List Nat)) [] t2 =
      (mkVecEnv p 0 vs, Except.ok ()) ∧
    VectorIface.Parse (fun i => elemParseVal (EnvFormat.Parse
          (VectorIface.Emit EnvFormat.Emit EnvFormat.VectorElementPath envName p
            (⟨w0.optional_, some vs⟩ : Variable (List Nat)) [] t2).1) p i)
        (fun _ => none) envName p (⟨w0.optional_, some vs⟩ : Variable (List Nat))
        (vs.length + 1) t3 =
      ((⟨w0.optional_, some vs⟩ : Variable (List Nat)), Except.ok true) := by
  have hne : vs ≠ [] := by
    intro hh
    rw [hh] at hn
    exact absurd hn (by simp)
  refine ⟨vector_parse_mkVecEnv p vs w0 t1 hn,
    vector_emit_mkVecEnv p vs w0.optional_ t2 hne, ?_⟩
  rw [vector_emit_mkVecEnv p vs w0.optional_ t2 hne]
  exact vector_parse_mkVecEnv p vs (⟨w0.optional_, some vs⟩ : Variable (List Nat)) t3 hn

/-- Witness for C7: the round trip at `p = "VEC"`, `vs = [12, 5]`. -/
theorem vector_parse_emit_roundtrip_witness :
    VectorIface.Parse
        (fun i => elemParseVal (EnvFormat.Parse (mkVecEnv "VEC" 0 [12, 5])) "VEC" i)
        (fun _ => none) envName "VEC" (Variable.empty (List Nat)) ([12, 5].length + 1)
        true =
      ((⟨false, some [12, 5]⟩ : Variable (List Nat)), Except.ok true) :=
  (vector_parse_emit_roundtrip "VEC" [12, 5] (Variable.empty (List Nat)) true true true
    (by decide)).1

mutual

theorem emit_lenient_spec : ∀ (n : Node) (dest : EnvMap),
    Node.Emit false n dest = (specEmit n dest, Except.ok ())
  | Node.nvar path hf v, dest => by
      rw [Node.Emit, specEmit]
      cases hv : v.value_ with
      | none => simp [VariableIface.Emit, hv]
      | some x => simp [VariableIface.Emit, hv]
  | Node.nvec path w, dest => by
      rw [Node.Emit, specEmit]
      cases hv : w.value_ with
      | none => simp [VectorIface.Emit, hv]
      | some l =>
          cases l with
          | nil => simp [VectorIface.Emit, hv, emitElems]
          | cons x rest => simp [VectorIface.Emit, hv]
  | Node.ngroup opt cs, dest => by
      rw [Node.Emit, specEmit]
      exact emitChildren_lenient_spec cs opt dest

theorem emitChildren_lenient_spec : ∀ (cs : List Node) (opt : Bool) (dest : EnvMap),
    emitChildren false opt cs dest = (specEmitChildren cs dest, Except.ok ())
  | [], opt, dest => by
      rw [emitChildren, specEmitChildren]
  | c :: rest, opt, dest => by
      rw [emitChildren, specEmitChildren]
      rw [emit_lenient_spec c dest]
      dsimp only
      exact emitChildren_lenient_spec rest opt (specEmit c dest)

end

mutual

theorem specEmit_allUnset : ∀ (n : Node) (dest : EnvMap),
    n.allUnset = true → specEmit n dest = dest
  | Node.nvar path hf v, dest => by
      intro h
      rw [Node.allUnset] at h
      rw [specEmit]
      cases hv : v.value_ with
      | none => rfl
      | some x =>
          rw [hv] at h
          simp [Option.isNone] at h
  | Node.nvec path w, dest => by
      intro h
      rw [Node.allUnset] at h
      rw [specEmit]
      cases hv : w.value_ with
      | none => rfl
      | some l =>
          rw [hv] at h
          simp [Option.isNone] at h
  | Node.ngroup opt cs, dest => by
      intro h
      rw [Node.allUnset] at h
      rw [specEmit]
      exact specEmitChildren_allUnset cs dest h

theorem specEmitChildren_allUnset : ∀ (cs : List Node) (dest : EnvMap),
    childrenAllUnset cs = true → specEmitChildren cs dest = dest
  | [], dest => by
      intro _
      rfl
  | c :: rest, dest => by
      intro h
      rw [childrenAllUnset, Bool.and_eq_true] at h
      rw [specEmitChildren, specEmit_allUnset c dest h.1]
      exact specEmitChildren_allUnset rest dest h.2

end

/-- C3 (amended): `Emit` never consults a Group's `Initialized()`.  A lenient Emit of
any tree writes exactly the entries of its initialized leaves — a group concatenates
its children's emissions unconditionally — so a Group whose `Initialized()` is false
still emits the keys of those children that do hold values.  A subtree in which every
Variable and Vector is unset (in particular an uninitialized optional Scalar, or an
uninitialized optional Group all of whose fields are unset) contributes zero keys. -/
theorem emit_ignores_group_initialized :
    (∀ (n : Node) (dest : EnvMap),
      Node.Emit false n dest = (specEmit n dest, Except.ok ())) ∧
    (∀ (n : Node) (dest : EnvMap), n.allUnset = true →
      (Node.Emit false n dest).1 = dest) := by
  refine ⟨emit_lenient_spec, fun n dest h => ?_⟩
  rw [emit_lenient_spec n dest]
  exact specEmit_allUnset n dest h

/-- Witness for C3 (amended): an uninitialized optional Scalar inside an uninitialized
optional Group emits zero keys. -/
theorem emit_ignores_group_initialized_witness :
    (Node.Emit false
      (Node.ngroup true [Node.nvar "X" false (Variable.empty Nat)]) []).1 = [] :=
  emit_ignores_group_initialized.2
    (Node.ngroup true [Node.nvar "X" false (Variable.empty Nat)]) [] (by rfl)

/-- Counterexample to C3 as stated: a Group with mandatory `A` unset — so its
`Initialized()` is false — and optional `B` pre-seeded with `0` emits the key of `B`:
the uninitialized Group does NOT emit nothing for its subtree. -/
theorem emit_uninitialized_group_cex :
    Node.Initialized (Node.ngroup false
      [Node.nvar "A" false (Variable.empty Nat),
       Node.nvar "B" false (Variable.withDefault 0)]) = false ∧
    (Node.Emit false (Node.ngroup false
      [Node.nvar "A" false (Variable.empty Nat),
       Node.nvar "B" false (Variable.withDefault 0)]) []).1 = [("B", "0")] := by
  exact ⟨rfl, rfl⟩

theorem parseChildren_swallow (fp : String → Option Nat) (fuel : Nat) (t opt : Bool)
    (hsw : opt = true ∨ t = false) :
    ∀ cs : List Node, parseChildren fp fuel t opt cs =
      (cs.map (fun c => (Node.Parse fp fuel t c).1),
       Except.ok (cs.any (fun c => parsedTrue (Node.Parse fp fuel t c).2))) := by
  have hgate : (!opt && t) = false := by
    rcases hsw with h | h <;> simp [h]
  intro cs
  induction cs with
  | nil =>
      rw [parseChildren]
      rfl
  | cons c rest ih =>
      rw [parseChildren]
      cases hc : (Node.Parse fp fuel t c).2 with
      | ok bc =>
          dsimp only
          rw [ih]
          simp [hc]
      | error e =>
          dsimp only
          rw [ih]
          simp [hgate, hc]

theorem parseChildren_rethrow_first (fp : String → Option Nat) (fuel : Nat)
    (c : Node) (post : List Node) (e : Err)
    (hc : (Node.Parse fp fuel true c).2 = Except.error e) :
    ∀ pre : List Node, (∀ d ∈ pre, threw (Node.Parse fp fuel true d).2 = false) →
      parseChildren fp fuel true false (pre ++ c :: post) =
        (pre.map (fun d => (Node.Parse fp fuel true d).1) ++
          (Node.Parse fp fuel true c).1 :: post,
         Except.error ⟨ErrKind.parse, e.msg⟩) := by
  intro pre
  induction pre with
  | nil =>
      intro _
      rw [List.nil_append, parseChildren, hc]
      rfl
  | cons d rest ih =>
      intro hpre
      have hd := hpre d (List.mem_cons_self _ _)
      cases hcd : (Node.Parse fp fuel true d).2 with
      | error e2 =>
          rw [hcd] at hd
          cases hd
      | ok bd =>
          rw [List.cons_append, parseChildren, hcd]
          dsimp only
          rw [ih (fun x hx => hpre x (List.mem_cons.mpr (Or.inr hx)))]
          rfl

/-- C2 (amended): when a child's `Parse` throws the system's error during a Group
traversal, the error is re-raised as `ParseError` iff the GROUP ITSELF is non-optional
and the strict flag is set (the gate reads the group's own `Optional()`, not the
child's); when the group is optional or the flag is unset, every child is attempted and
all errors are swallowed as `parsed == false`; when the gate holds, the first throwing
child aborts the loop and the later siblings are NOT attempted — their states stay
untouched. -/
theorem group_parse_error_propagation :
    (∀ (fp : String → Option Nat) (fuel : Nat) (t opt : Bool), (opt = true ∨ t = false) →
      ∀ cs : List Node, parseChildren fp fuel t opt cs =
        (cs.map (fun c => (Node.Parse fp fuel t c).1),
         Except.ok (cs.any (fun c => parsedTrue (Node.Parse fp fuel t c).2)))) ∧
    (∀ (fp : String → Option Nat) (fuel : Nat) (c : Node) (post : List Node) (e : Err),
      (Node.Parse fp fuel true c).2 = Except.error e →
      ∀ pre : List Node, (∀ d ∈ pre, threw (Node.Parse fp fuel true d).2 = false) →
        parseChildren fp fuel true false (pre ++ c :: post) =
          (pre.map (fun d => (Node.Parse fp fuel true d).1) ++
            (Node.Parse fp fuel true c).1 :: post,
           Except.error ⟨ErrKind.parse, e.msg⟩)) :=
  ⟨fun fp fuel t opt hsw => parseChildren_swallow fp fuel t opt hsw,
   fun fp fuel c post e hc => parseChildren_rethrow_first fp fuel c post e hc⟩

/-- Witness for C2 (amended): an optional group swallows its mandatory child's strict
error and attempts the child list to the end. -/
theorem group_parse_error_propagation_witness :
    parseChildren (fun _ => none) 1 true true
      [Node.nvar "A" false (Variable.empty Nat)] =
      ([Node.nvar "A" false (Variable.empty Nat)], Except.ok false) :=
  group_parse_error_propagation.1 (fun _ => none) 1 true true (Or.inl rfl)
    [Node.nvar "A" false (Variable.empty Nat)]

/-- Counterexample to C2 as stated: (i) inside an OPTIONAL group parsed strictly, a
non-optional child's thrown error is swallowed (`Parse` returns `ok false`) even though
the child is non-optional and the strict flag is set — the gate is the group's own
optionality; and (ii) inside a non-optional group parsed strictly, the first missing
mandatory child aborts the traversal: sibling `B` — present in the source — is left
unparsed, so not all siblings are attempted. -/
theorem group_parse_error_propagation_cex :
    (threw (Node.Parse (fun _ => none) 1 true
        (Node.nvar "A" false (Variable.empty Nat))).2 = true ∧
      (Node.Parse (fun _ => none) 1 true
        (Node.ngroup true [Node.nvar "A" false (Variable.empty Nat)])).2 =
          Except.ok false) ∧
    Node.Parse (fun p => if p = "B" then some 5 else none) 1 true
        (Node.ngroup false
          [Node.nvar "A" false (Variable.empty Nat),
           Node.nvar "B" false (Variable.empty Nat)]) =
      (Node.ngroup false
        [Node.nvar "A" false (Variable.empty Nat),
         Node.nvar "B" false (Variable.empty Nat)],
       Except.error ⟨ErrKind.parse, notValidMsg envName "A" "variable is not set"⟩) := by
  exact ⟨⟨rfl, rfl⟩, rfl⟩

/-- Witness for C8: a group with field `A` absent and field `B` present parses to
`true`, and indeed child `B` reported `parsed == true`. -/
theorem group_parsed_iff_any_child_witness :
    (true : Bool) =
      [Node.nvar "A" false (Variable.empty Nat),
       Node.nvar "B" false (Variable.empty Nat)].any
        (fun c => parsedTrue
          (Node.Parse (fun p => if p = "B" then some 5 else none) 1 false c).2) :=
  group_parsed_iff_any_child (fun p => if p = "B" then some 5 else none) 1 false false
    [Node.nvar "A" false (Variable.empty Nat), Node.nvar "B" false (Variable.empty Nat)]
    (Node.ngroup false
      [Node.nvar "A" false (Variable.empty Nat),
       Node.nvar "B" false ((Variable.empty Nat).assign 5)])
    true (by rfl)

end UConfig
